import Mathlib

/-!
Verification of the app-version-checker core.

This file embeds the version-comparison utilities (`compareVersions`,
`isUpdateAvailable`, `sortVersions`, `getLatestVersion`), the store-URL
resolver (`getStoreUrl`), and the `VersionChecker` decision engine
(`getVersionInfo`, `isUpdateAvailable`, `shouldShowUpdatePrompt`) as
executable Lean definitions, and proves properties about them.

JavaScript semantics that matter here and are modelled explicitly:
* `"s".split` at dots on the character list (`splitSegs`), which never
  returns an empty list (splitting the empty string gives one empty segment);
* `parseInt(seg, 10)` (`jsParseInt`), returning `Option Int` where
  `none` models `NaN` (leading whitespace skipped, optional sign,
  longest digit prefix, `NaN` when no digit);
* `NaN` comparisons: `NaN < x`, `x < NaN`, `NaN > x` are all false, so
  an unparsable segment ties with everything (`segLT`);
* JS truthiness on numbers (`0` and `NaN` are falsy) and on strings
  (`""` and `null` are falsy).
-/

/-- Model of `v.split` at dots on the underlying character list.
Splitting at every dot; always returns at least one (possibly empty)
segment, like JavaScript `String.prototype.split`. -/
def splitSegs : List Char → List (List Char)
  | [] => [[]]
  | c :: cs =>
    if c = '.' then [] :: splitSegs cs
    else
      match splitSegs cs with
      | s :: ss => (c :: s) :: ss
      | [] => [[c]]

/-- JS whitespace test for the characters `parseInt` skips (the common
ASCII whitespace characters). -/
def isJsSpace (c : Char) : Bool :=
  c = ' ' || c = '\t' || c = '\n' || c = '\r'

/-- Value of the longest digit prefix, accumulator style
(`parseInt` consumes digits until the first non-digit). -/
def digitsVal (acc : Nat) : List Char → Nat
  | [] => acc
  | c :: cs => if c.isDigit then digitsVal (acc * 10 + (c.toNat - 48)) cs else acc

/-- Parse a longest nonempty digit prefix; `none` when the first
character is not a digit (JS `parseInt` yields `NaN` then). -/
def parseDigits : List Char → Option Nat
  | [] => none
  | c :: cs => if c.isDigit then some (digitsVal (c.toNat - 48) cs) else none

/-- Model of JavaScript `parseInt(s, 10)`: skip leading whitespace,
optional sign, longest digit prefix; `none` models `NaN`. -/
def jsParseInt (s : List Char) : Option Int :=
  match s.dropWhile isJsSpace with
  | [] => none
  | c :: rest =>
    if c = '-' then (parseDigits rest).map (fun n => -(n : Int))
    else if c = '+' then (parseDigits rest).map (fun n => (n : Int))
    else (parseDigits (c :: rest)).map (fun n => (n : Int))

/-- The parsed segments of a version string:
`v1.split` at dots, then `parseInt` on each segment, with `none` for `NaN`. -/
def versionParts (v : String) : List (Option Int) :=
  (splitSegs v.toList).map jsParseInt

/-- JS `<` on two parsed segments: any comparison involving `NaN`
(`none`) is false. -/
def segLT : Option Int → Option Int → Bool
  | some a, some b => a < b
  | _, _ => false

/-- The comparison loop of `compareVersions`: first segment pair with a
strict inequality decides; `NaN` segments decide nothing. -/
def cmpSegs : List (Option Int) → List (Option Int) → Int
  | a :: as, b :: bs =>
    if segLT a b then -1 else if segLT b a then 1 else cmpSegs as bs
  | _, _ => 0

/-- Function `compareVersions(v1, v2)` from `version-compare.ts`: split at dots,
`parseInt` each segment, pad the shorter list with `0` (the number zero)
to equal length, then compare segment by segment. -/
def compareVersions (v1 v2 : String) : Int :=
  let p1 := versionParts v1
  let p2 := versionParts v2
  let n := max p1.length p2.length
  cmpSegs (p1 ++ List.replicate (n - p1.length) (some 0))
          (p2 ++ List.replicate (n - p2.length) (some 0))

/-- Function `isUpdateAvailable(currentVersion, latestVersion)`:
`compareVersions(currentVersion, latestVersion) < 0`. -/
def isUpdateAvailable (currentVersion latestVersion : String) : Bool :=
  compareVersions currentVersion latestVersion < 0

/-- Comparison that skips every pair with an unparsable (`NaN`) side:
what `compareVersions` actually computes, since `NaN` decides nothing. -/
def cmpSkip : List (Option Int) → List (Option Int) → Int
  | some a :: as, some b :: bs =>
    if a < b then -1 else if b < a then 1 else cmpSkip as bs
  | _ :: as, _ :: bs => cmpSkip as bs
  | _, _ => 0

/-- Variant of `compareVersions` with the pairs containing an unparsable segment
skipped instead of zeroed. -/
def compareVersionsSkipNaN (v1 v2 : String) : Int :=
  let p1 := versionParts v1
  let p2 := versionParts v2
  let n := max p1.length p2.length
  cmpSkip (p1 ++ List.replicate (n - p1.length) (some 0))
          (p2 ++ List.replicate (n - p2.length) (some 0))

/-! ## Sorting and latest-of-list helpers (`version-format.ts`) -/

/-- One segment as used by the `sortVersions` comparator:
`aParts[i] || 0` turns both `NaN` and a missing index into `0`. -/
def jsNumOr0 (s : List Char) : Int :=
  (jsParseInt s).getD 0

/-- The parsed segments as the `sortVersions` comparator sees them. -/
def sortParts (v : String) : List Int :=
  (splitSegs v.toList).map jsNumOr0

/-- The comparator loop of `sortVersions` once the first list is
exhausted: `aPart` reads as `0`, so the first nonzero `bPart` decides. -/
def sortCmpNil : List Int → Int
  | [] => 0
  | b :: bs => if b ≠ 0 then -b else sortCmpNil bs

/-- Ascending comparator loop of `sortVersions`: at the first index with
`aPart !== bPart` return `aPart - bPart`; a missing index reads as `0`. -/
def sortCmpAux : List Int → List Int → Int
  | [], m => sortCmpNil m
  | a :: as, [] => if a ≠ 0 then a else sortCmpAux as []
  | a :: as, b :: bs => if a ≠ b then a - b else sortCmpAux as bs



/-- The pairwise comparator of `sortVersions`: `aPart - bPart` when
ascending, `bPart - aPart` when descending. -/
def sortCmp (descending : Bool) (a b : String) : Int :=
  if descending then sortCmpAux (sortParts b) (sortParts a)
  else sortCmpAux (sortParts a) (sortParts b)

/-- Insert into a list sorted by `le` (comparator result `≤ 0`). -/
def insertSorted (le : String → String → Bool) (x : String) :
    List String → List String
  | [] => [x]
  | y :: ys => if le x y then x :: y :: ys else y :: insertSorted le x ys

/-- Comparison sort by `le`; models `Array.prototype.sort` with a
consistent comparator (the order is determined up to ties). -/
def sortByCmp (le : String → String → Bool) : List String → List String
  | [] => []
  | x :: xs => insertSorted le x (sortByCmp le xs)

/-- Function `sortVersions(versions, descending)`: sort a copy of the list by the
segment-wise comparator. -/
def sortVersions (versions : List String) (descending : Bool) : List String :=
  sortByCmp (fun a b => sortCmp descending a b ≤ 0) versions

/-- Function `getLatestVersion(versions)`: `null` for an empty list, else the
first element of the descending sort. -/
def getLatestVersion (versions : List String) : Option String :=
  if versions.isEmpty then none
  else (sortVersions versions true).head?

/-! ## Store-URL resolver (`stores.ts`) -/

/-- Structure `AppStoreConfig` from `types.ts`; all four fields optional strings. -/
structure AppStoreConfig where
  iosAppStoreId : Option String := none
  androidPackageName : Option String := none
  iosStoreUrl : Option String := none
  androidStoreUrl : Option String := none
deriving DecidableEq

/-- JS truthiness of an optional string: `null`/`undefined` and `""` are
falsy, every other string is truthy. -/
def truthyOS (o : Option String) : Bool :=
  o.getD "" ≠ ""

/-- Enumeration `Platform` from `types.ts`. -/
inductive Platform where
  | ios
  | android
  | web
deriving DecidableEq

/-- Function `getIosStoreUrl(appStoreId?, customUrl?)`: a truthy custom URL wins;
else `null` without an app-store id; else the synthesized URL. -/
def getIosStoreUrl (appStoreId customUrl : Option String) : Option String :=
  if truthyOS customUrl then customUrl
  else if !truthyOS appStoreId then none
  else some ("https://apps.apple.com/app/id" ++ appStoreId.getD "")

/-- Function `getAndroidStoreUrl(packageName?, customUrl?)`: a truthy custom URL
wins; else `null` without a package name; else the synthesized URL. -/
def getAndroidStoreUrl (packageName customUrl : Option String) : Option String :=
  if truthyOS customUrl then customUrl
  else if !truthyOS packageName then none
  else some ("https://play.google.com/store/apps/details?id=" ++ packageName.getD "")

/-- Function `getStoreUrl(platform, config)`. -/
def getStoreUrl (platform : Platform) (config : AppStoreConfig) : Option String :=
  match platform with
  | .ios => getIosStoreUrl config.iosAppStoreId config.iosStoreUrl
  | .android => getAndroidStoreUrl config.androidPackageName config.androidStoreUrl
  | .web => none

/-- The claim description of the store-URL resolver, written from the
specification text: for `ios` the explicit `iosStoreUrl` override when
present, else a URL synthesized from `iosAppStoreId` when present, else
`null`; for `android` likewise from `androidStoreUrl` /
`androidPackageName`; for `web` always `null`. "Present" means a
non-empty value is supplied (JS truthiness of an optional string). -/
def resolveStoreUrlSpec (platform : Platform) (config : AppStoreConfig) : Option String :=
  match platform with
  | .ios =>
    if truthyOS config.iosStoreUrl then config.iosStoreUrl
    else if truthyOS config.iosAppStoreId then
      some ("https://apps.apple.com/app/id" ++ config.iosAppStoreId.getD "")
    else none
  | .android =>
    if truthyOS config.androidStoreUrl then config.androidStoreUrl
    else if truthyOS config.androidPackageName then
      some ("https://play.google.com/store/apps/details?id=" ++ config.androidPackageName.getD "")
    else none
  | .web => none

/-- Valid dotted version string: one or more dot-separated segments,
each a nonempty string of decimal digits (a non-negative integer). -/
def isDottedNumeric (v : String) : Bool :=
  (splitSegs v.toList).all (fun seg => !seg.isEmpty && seg.all Char.isDigit)

/-! ## Decision engine (`version-checker.ts`)

The engine is embedded as explicit state passing. One evaluation is a
function of an environment (the injected providers and options), the
preference-store state, an event trace, and a clock counter, returning
`Except Unit α` (`.error` models a rejected promise) together with the
updated store state, the extended trace and the advanced clock. Each
provider call appends an `Event`; `Date.now()` reads `nowFn` at the
current clock index and advances it. -/

/-- Structure `VersionInfo` from `types.ts`. -/
structure VersionInfo where
  currentVersion : String
  latestVersion : Option String
  updateAvailable : Bool
  storeUrl : Option String
  platform : Platform
deriving DecidableEq

/-- The `skipReason` values of `VersionCheckResult`. -/
inductive SkipReason where
  | no_update
  | web_platform
  | remind_later
  | too_soon
  | error
deriving DecidableEq

/-- Structure `VersionCheckResult` from `types.ts`. -/
structure VersionCheckResult where
  shouldShowPrompt : Bool
  versionInfo : VersionInfo
  skipReason : Option SkipReason
deriving DecidableEq

/-- The preference-store contents the engine reads and writes. -/
structure StoreState where
  remindLaterTime : Option Int
  lastCheckTime : Option Int
  lastShownVersion : Option String
  dismissCount : Nat
deriving DecidableEq

/-- The injected Data Source, as pure outcomes: each operation either
resolves to a value (`.ok`) or rejects (`.error ()`).
`isUpdateMandatory` is `none` when the provider does not implement the
optional hook. -/
structure DataProviderModel where
  getCurrentVersion : Except Unit String
  getLatestVersion : Platform → Except Unit (Option String)
  getAppStoreConfig : Except Unit AppStoreConfig
  isUpdateMandatory : Option (String → String → Except Unit Bool)

/-- Which optional Preference Store operations exist, and which
operations reject when called. -/
structure StorageBehavior where
  getRemindLaterThrows : Bool
  getLastCheckThrows : Bool
  hasGetLastShown : Bool
  getLastShownThrows : Bool
  setLastCheckThrows : Bool
  hasSetLastShown : Bool
  setLastShownThrows : Bool
deriving DecidableEq

/-- Environment of one engine instance: providers, the resolved options
(`minCheckInterval`, `skipWebPlatform`), the platform the configured
`getPlatform` returns, and the values successive `Date.now()` calls
return (`nowFn k` is the `k`-th reading). -/
structure Env where
  data : DataProviderModel
  sb : StorageBehavior
  nowFn : Nat → Int
  platform : Platform
  minCheckInterval : Int
  skipWebPlatform : Bool

/-- Provider calls recorded in the trace. -/
inductive Event where
  | getCurrentVersion
  | getLatestVersion (p : Platform)
  | getAppStoreConfig
  | getRemindLaterTime
  | getLastCheckTime
  | getLastShownVersion
  | isUpdateMandatoryQuery
  | setLastCheckTime (t : Int)
  | setLastShownVersion (v : String)
  | setRemindLaterTime (t : Int)
  | incrementDismissCount
deriving DecidableEq

/-- Preference Store writes. -/
def isWrite : Event → Bool
  | .setLastCheckTime _ => true
  | .setLastShownVersion _ => true
  | .setRemindLaterTime _ => true
  | .incrementDismissCount => true
  | _ => false

/-- Value part of `getVersionInfo()` (lines 99–118): fetch current
version, latest version for the platform, and store config, in order,
propagating the first rejection; `updateAvailable` is computed only for
a truthy `latestVersion` (JS `latestVersion ? … : false`). -/
def getVersionInfoExc (env : Env) : Except Unit VersionInfo :=
  match env.data.getCurrentVersion with
  | .error e => .error e
  | .ok currentVersion =>
    match env.data.getLatestVersion env.platform with
    | .error e => .error e
    | .ok latestVersion =>
      match env.data.getAppStoreConfig with
      | .error e => .error e
      | .ok appStoreConfig =>
        .ok { currentVersion := currentVersion
              latestVersion := latestVersion
              updateAvailable :=
                match latestVersion with
                | some l => if l ≠ "" then isUpdateAvailable currentVersion l else false
                | none => false
              storeUrl := getStoreUrl env.platform appStoreConfig
              platform := env.platform }

/-- Data Source calls `getVersionInfo()` performs (it stops at the first
rejection). -/
def getVersionInfoTrace (env : Env) : List Event :=
  Event.getCurrentVersion ::
    match env.data.getCurrentVersion with
    | .error _ => []
    | .ok _ =>
      Event.getLatestVersion env.platform ::
        match env.data.getLatestVersion env.platform with
        | .error _ => []
        | .ok _ => [Event.getAppStoreConfig]

/-- Method `getVersionInfo()` as a run: no Preference Store access, no
`Date.now()` reading. -/
def getVersionInfoRun (env : Env) (st : StoreState) (tr : List Event) (ck : Nat) :
    Except Unit VersionInfo × StoreState × List Event × Nat :=
  (getVersionInfoExc env, st, tr ++ getVersionInfoTrace env, ck)

/-- Method `isUpdateAvailable()` (lines 123–133): `false` immediately for the
web platform when `skipWebPlatform` is set, else
`getVersionInfo().updateAvailable`. -/
def isUpdateAvailableRun (env : Env) (st : StoreState) (tr : List Event) (ck : Nat) :
    Except Unit Bool × StoreState × List Event × Nat :=
  if env.platform = Platform.web ∧ env.skipWebPlatform then
    (.ok false, st, tr, ck)
  else
    match getVersionInfoRun env st tr ck with
    | (.error e, st1, tr1, ck1) => (.error e, st1, tr1, ck1)
    | (.ok vi, st1, tr1, ck1) => (.ok vi.updateAvailable, st1, tr1, ck1)

/-- Call `storageProvider.getRemindLaterTime()`. -/
def getRemindLaterRun (env : Env) (st : StoreState) (tr : List Event) (ck : Nat) :
    Except Unit (Option Int) × StoreState × List Event × Nat :=
  ((if env.sb.getRemindLaterThrows then .error () else .ok st.remindLaterTime),
    st, tr ++ [Event.getRemindLaterTime], ck)

/-- Call `storageProvider.getLastCheckTime()`. -/
def getLastCheckRun (env : Env) (st : StoreState) (tr : List Event) (ck : Nat) :
    Except Unit (Option Int) × StoreState × List Event × Nat :=
  ((if env.sb.getLastCheckThrows then .error () else .ok st.lastCheckTime),
    st, tr ++ [Event.getLastCheckTime], ck)

/-- Call `storageProvider.getLastShownVersion()` (only called when the store
supports it). -/
def getLastShownRun (env : Env) (st : StoreState) (tr : List Event) (ck : Nat) :
    Except Unit (Option String) × StoreState × List Event × Nat :=
  ((if env.sb.getLastShownThrows then .error () else .ok st.lastShownVersion),
    st, tr ++ [Event.getLastShownVersion], ck)

/-- Call `storageProvider.setLastCheckTime(t)`: on success the stored value
changes; a rejection leaves the store as it was. -/
def setLastCheckRun (env : Env) (t : Int) (st : StoreState) (tr : List Event) (ck : Nat) :
    Except Unit Unit × StoreState × List Event × Nat :=
  if env.sb.setLastCheckThrows then
    (.error (), st, tr ++ [Event.setLastCheckTime t], ck)
  else
    (.ok (), { st with lastCheckTime := some t }, tr ++ [Event.setLastCheckTime t], ck)

/-- Call `storageProvider.setLastShownVersion(v)`. -/
def setLastShownRun (env : Env) (v : String) (st : StoreState) (tr : List Event) (ck : Nat) :
    Except Unit Unit × StoreState × List Event × Nat :=
  if env.sb.setLastShownThrows then
    (.error (), st, tr ++ [Event.setLastShownVersion v], ck)
  else
    (.ok (), { st with lastShownVersion := some v }, tr ++ [Event.setLastShownVersion v], ck)

/-- JS truthiness of an optional number (`null`, `0` and `NaN` are
falsy; stored timestamps are integers here). -/
def truthyON (o : Option Int) : Bool :=
  match o with
  | some t => t ≠ 0
  | none => false

/-- Lines 210–221 of `shouldShowUpdatePrompt()`:
`setLastCheckTime(Date.now())`, then `setLastShownVersion` when
supported and the latest version is truthy, then the prompting result. -/
def promptWriteRun (env : Env) (vi : VersionInfo) (st : StoreState)
    (tr : List Event) (ck : Nat) :
    Except Unit VersionCheckResult × StoreState × List Event × Nat :=
  match setLastCheckRun env (env.nowFn ck) st tr (ck + 1) with
  | (.error e, st1, tr1, ck1) => (.error e, st1, tr1, ck1)
  | (.ok _, st1, tr1, ck1) =>
    if env.sb.hasSetLastShown ∧ truthyOS vi.latestVersion then
      match setLastShownRun env (vi.latestVersion.getD "") st1 tr1 ck1 with
      | (.error e, st2, tr2, ck2) => (.error e, st2, tr2, ck2)
      | (.ok _, st2, tr2, ck2) => (.ok ⟨true, vi, none⟩, st2, tr2, ck2)
    else
      (.ok ⟨true, vi, none⟩, st1, tr1, ck1)

/-- Lines 183–208 of `shouldShowUpdatePrompt()`: the optional "already
shown this version" guard (suppressing a repeat as `remind_later`
unless the optional mandatory hook reports the update mandatory),
followed by the prompt path with its writes. -/
def promptShownCheckRun (env : Env) (vi : VersionInfo) (st : StoreState)
    (tr : List Event) (ck : Nat) :
    Except Unit VersionCheckResult × StoreState × List Event × Nat :=
  if env.sb.hasGetLastShown then
    match getLastShownRun env st tr ck with
    | (.error e, st1, tr1, ck1) => (.error e, st1, tr1, ck1)
    | (.ok lastShownVersion, st1, tr1, ck1) =>
      if lastShownVersion = vi.latestVersion then
        match env.data.isUpdateMandatory with
        | some mandatoryHook =>
          match mandatoryHook vi.currentVersion (vi.latestVersion.getD "") with
          | .error e => (.error e, st1, tr1 ++ [Event.isUpdateMandatoryQuery], ck1)
          | .ok isMandatory =>
            if isMandatory = false then
              (.ok ⟨false, vi, some .remind_later⟩, st1,
                tr1 ++ [Event.isUpdateMandatoryQuery], ck1)
            else
              promptWriteRun env vi st1 (tr1 ++ [Event.isUpdateMandatoryQuery]) ck1
        | none =>
          (.ok ⟨false, vi, some .remind_later⟩, st1, tr1, ck1)
      else
        promptWriteRun env vi st1 tr1 ck1
  else
    promptWriteRun env vi st tr ck

/-- The body of the `try` block of `shouldShowUpdatePrompt()`
(lines 152–221): fetch version info; skip with `no_update`,
`remind_later` (reminder window, or repeat of a non-mandatory shown
version), or `too_soon`; otherwise persist `lastCheckTime = Date.now()`
and (when supported and the latest version is truthy) the last shown
version, and prompt. The reminder and interval guards only read
`Date.now()` when the stored value is truthy (JS `&&` short-circuit,
`0` falsy). Any rejection exits with `.error`. -/
def promptTryRun (env : Env) (st : StoreState) (tr : List Event) (ck : Nat) :
    Except Unit VersionCheckResult × StoreState × List Event × Nat :=
  match getVersionInfoRun env st tr ck with
  | (.error e, st1, tr1, ck1) => (.error e, st1, tr1, ck1)
  | (.ok vi, st1, tr1, ck1) =>
    if vi.updateAvailable = false then
      (.ok ⟨false, vi, some .no_update⟩, st1, tr1, ck1)
    else
      match getRemindLaterRun env st1 tr1 ck1 with
      | (.error e, st2, tr2, ck2) => (.error e, st2, tr2, ck2)
      | (.ok rlt, st2, tr2, ck2) =>
        let remindHit :=
          if truthyON rlt then ((env.nowFn ck2 < rlt.getD 0 : Bool), ck2 + 1)
          else (false, ck2)
        if remindHit.1 then
          (.ok ⟨false, vi, some .remind_later⟩, st2, tr2, remindHit.2)
        else
          match getLastCheckRun env st2 tr2 remindHit.2 with
          | (.error e, st3, tr3, ck3) => (.error e, st3, tr3, ck3)
          | (.ok lct, st3, tr3, ck3) =>
            let soonHit :=
              if truthyON lct then
                ((env.nowFn ck3 - lct.getD 0 < env.minCheckInterval : Bool), ck3 + 1)
              else (false, ck3)
            if soonHit.1 then
              (.ok ⟨false, vi, some .too_soon⟩, st3, tr3, soonHit.2)
            else
              promptShownCheckRun env vi st3 tr3 soonHit.2

/-- Method `shouldShowUpdatePrompt()` (lines 138–231): the web-platform
short-circuit (outside the `try`), then the guarded decision sequence;
the `catch` block re-fetches the version info — unguarded, so a
rejection there rejects the whole call. -/
def shouldShowUpdatePromptRun (env : Env) (st : StoreState) (tr : List Event) (ck : Nat) :
    Except Unit VersionCheckResult × StoreState × List Event × Nat :=
  if env.platform = Platform.web ∧ env.skipWebPlatform then
    match getVersionInfoRun env st tr ck with
    | (.error e, st1, tr1, ck1) => (.error e, st1, tr1, ck1)
    | (.ok vi, st1, tr1, ck1) => (.ok ⟨false, vi, some .web_platform⟩, st1, tr1, ck1)
  else
    match promptTryRun env st tr ck with
    | (.ok r, st1, tr1, ck1) => (.ok r, st1, tr1, ck1)
    | (.error _, st1, tr1, ck1) =>
      match getVersionInfoRun env st1 tr1 ck1 with
      | (.error e, st2, tr2, ck2) => (.error e, st2, tr2, ck2)
      | (.ok vi, st2, tr2, ck2) => (.ok ⟨false, vi, some .error⟩, st2, tr2, ck2)

def sbHonest : StorageBehavior := ⟨false, false, true, false, false, true, false⟩

def dpFresh : DataProviderModel :=
  { getCurrentVersion := .ok "1.0.49"
    getLatestVersion := fun _ => .ok (some "1.1.0")
    getAppStoreConfig := .ok {}
    isUpdateMandatory := none }

def envFresh : Env :=
  { data := dpFresh, sb := sbHonest, nowFn := fun k => 1000 + k
    platform := .ios, minCheckInterval := 3600000, skipWebPlatform := true }

def envReject : Env :=
  { envFresh with data := { dpFresh with getLatestVersion := fun _ => .error () } }

def envWeb : Env := { envFresh with platform := .web }

def stEmpty : StoreState := ⟨none, none, none, 0⟩

/-! ## Comparator lemmas -/

lemma segLT_irrefl (a : Option Int) : segLT a a = false := by
  cases a <;> simp [segLT]

lemma segLT_asymm {a b : Option Int} (h : segLT a b = true) : segLT b a = false := by
  cases a <;> cases b <;> simp_all [segLT]
  omega

lemma cmpSegs_self (l : List (Option Int)) : cmpSegs l l = 0 := by
  induction l with
  | nil => rfl
  | cons a as ih => simp [cmpSegs, segLT_irrefl, ih]

lemma cmpSegs_neg (l1 l2 : List (Option Int)) : cmpSegs l1 l2 = -cmpSegs l2 l1 := by
  induction l1 generalizing l2 with
  | nil => cases l2 <;> rfl
  | cons a as ih =>
    cases l2 with
    | nil => rfl
    | cons b bs =>
      by_cases h1 : segLT a b = true
      · simp [cmpSegs, h1, segLT_asymm h1]
      · by_cases h2 : segLT b a = true
        · simp [cmpSegs, h2, segLT_asymm h2]
        · simp at h1 h2
          simp [cmpSegs, h1, h2, ih]

lemma cmpSegs_range (l1 l2 : List (Option Int)) :
    cmpSegs l1 l2 = -1 ∨ cmpSegs l1 l2 = 0 ∨ cmpSegs l1 l2 = 1 := by
  induction l1 generalizing l2 with
  | nil => cases l2 <;> simp [cmpSegs]
  | cons a as ih =>
    cases l2 with
    | nil => simp [cmpSegs]
    | cons b bs =>
      by_cases h1 : segLT a b = true
      · simp [cmpSegs, h1]
      · by_cases h2 : segLT b a = true
        · simp [cmpSegs, h1, h2]
        · simpa [cmpSegs, h1, h2] using ih bs

lemma compareVersions_antisymm (a b : String) :
    compareVersions a b = -compareVersions b a := by
  show cmpSegs _ _ = -cmpSegs _ _
  rw [Nat.max_comm (versionParts a).length (versionParts b).length]
  exact cmpSegs_neg _ _

lemma compareVersions_self (a : String) : compareVersions a a = 0 := by
  show cmpSegs _ _ = 0
  exact cmpSegs_self _


lemma cmpSegs_eq_cmpSkip (l1 l2 : List (Option Int)) :
    cmpSegs l1 l2 = cmpSkip l1 l2 := by
  induction l1 generalizing l2 with
  | nil => cases l2 <;> rfl
  | cons a as ih =>
    cases l2 with
    | nil => cases a <;> rfl
    | cons b bs =>
      cases a <;> cases b <;> simp [cmpSegs, cmpSkip, segLT, ih]


lemma compareVersions_eq_skipNaN (a b : String) :
    compareVersions a b = compareVersionsSkipNaN a b :=
  cmpSegs_eq_cmpSkip _ _

/-! ## Split and padding lemmas -/

lemma splitSegs_ne_nil (l : List Char) : splitSegs l ≠ [] := by
  cases l with
  | nil => simp [splitSegs]
  | cons c cs =>
    by_cases h : c = '.'
    · simp [splitSegs, h]
    · simp only [splitSegs, if_neg h]
      rcases hs : splitSegs cs with _ | ⟨s, ss⟩
      · simp
      · simp

lemma splitSegs_append_dot (l1 l2 : List Char) :
    splitSegs (l1 ++ '.' :: l2) = splitSegs l1 ++ splitSegs l2 := by
  induction l1 with
  | nil => simp [splitSegs]
  | cons c cs ih =>
    by_cases h : c = '.'
    · simp [splitSegs, h, ih]
    · rcases hs : splitSegs cs with _ | ⟨s, ss⟩
      · exact absurd hs (splitSegs_ne_nil cs)
      · simp only [List.cons_append, splitSegs, if_neg h]
        rw [show cs.append ('.' :: l2) = cs ++ '.' :: l2 from rfl, ih, hs]
        simp

lemma cmpSegs_append_single {l1 l2 : List (Option Int)} (x : Option Int)
    (h : l1.length = l2.length) :
    cmpSegs (l1 ++ [x]) (l2 ++ [x]) = cmpSegs l1 l2 := by
  induction l1 generalizing l2 with
  | nil =>
    have : l2 = [] := by simpa using h.symm
    subst this
    simp [cmpSegs, segLT_irrefl]
  | cons a as ih =>
    cases l2 with
    | nil => simp at h
    | cons b bs =>
      simp only [List.length_cons, Nat.succ.injEq] at h
      by_cases h1 : segLT a b = true
      · simp [cmpSegs, h1]
      · by_cases h2 : segLT b a = true
        · simp [cmpSegs, h1, h2]
        · simp only [List.cons_append, cmpSegs, h1, h2, if_false,
            Bool.not_eq_true] at *
          simp [h1, h2, ih h]

lemma versionParts_append_zero (a : String) :
    versionParts (a ++ ".0") = versionParts a ++ [some 0] := by
  unfold versionParts
  have h1 : (a ++ ".0").toList = a.toList ++ '.' :: ['0'] := rfl
  rw [h1, splitSegs_append_dot]
  simp [splitSegs]
  rfl

lemma compareVersions_append_zero_left (a b : String) :
    compareVersions (a ++ ".0") b = compareVersions a b := by
  show cmpSegs _ _ = cmpSegs _ _
  rw [versionParts_append_zero]
  set p1 := versionParts a with hp1
  set p2 := versionParts b with hp2
  rcases le_or_lt p2.length p1.length with hle | hlt
  · have hm : max (p1 ++ [some 0]).length p2.length = p1.length + 1 := by
      simp [List.length_append]
      omega
    have hm2 : max p1.length p2.length = p1.length := by omega
    rw [hm, hm2]
    have e1 : p1.length + 1 - (p1 ++ [some 0]).length = 0 := by
      simp [List.length_append]
    have e2 : p1.length + 1 - p2.length = (p1.length - p2.length) + 1 := by omega
    rw [e1, e2, List.replicate_succ', List.replicate]
    rw [List.append_nil, ← List.append_assoc]
    have e3 : p1.length - p1.length = 0 := by omega
    rw [e3, List.replicate, List.append_nil]
    exact cmpSegs_append_single (some 0) (by simp [List.length_append]; omega)
  · have hm : max (p1 ++ [some 0]).length p2.length = p2.length := by
      simp [List.length_append]
      omega
    have hm2 : max p1.length p2.length = p2.length := by omega
    rw [hm, hm2]
    have e1 : p2.length - (p1 ++ [some 0]).length = p2.length - p1.length - 1 := by
      simp [List.length_append]
      omega
    have e2 : p2.length - p2.length = 0 := by omega
    rw [e1, e2, List.replicate, List.append_nil, List.append_assoc]
    have e3 : ([some 0] : List (Option Int)) ++ List.replicate (p2.length - p1.length - 1) (some 0)
        = List.replicate (p2.length - p1.length) (some 0) := by
      have : p2.length - p1.length = (p2.length - p1.length - 1) + 1 := by omega
      rw [this, List.replicate_succ]
      rfl
    rw [e3]

lemma compareVersions_append_zero_right (a b : String) :
    compareVersions a (b ++ ".0") = compareVersions a b := by
  rw [compareVersions_antisymm, compareVersions_append_zero_left,
    ← compareVersions_antisymm]

/-! ## Sort-comparator lemmas -/

lemma sortCmpAux_nil_nil : sortCmpAux [] [] = 0 := rfl

lemma sortCmpAux_nil (m : List Int) : sortCmpAux [] m = sortCmpNil m := rfl

lemma sortCmpAux_nil_left (m : List Int) : sortCmpAux [] m = -sortCmpAux m [] := by
  induction m with
  | nil => simp [sortCmpAux_nil_nil]
  | cons b bs ih =>
    rw [sortCmpAux_nil] at ih ⊢
    by_cases h : b = 0 <;> simp [sortCmpNil, sortCmpAux, h, ← ih]

lemma sortCmpAux_neg (l1 l2 : List Int) : sortCmpAux l1 l2 = -sortCmpAux l2 l1 := by
  induction l1 generalizing l2 with
  | nil => exact sortCmpAux_nil_left l2
  | cons a as ih =>
    cases l2 with
    | nil =>
      have := sortCmpAux_nil_left (a :: as)
      omega
    | cons b bs =>
      by_cases h : a = b
      · subst h
        simp [sortCmpAux, ih]
      · have h' : ¬b = a := fun e => h e.symm
        simp [sortCmpAux, h, h']

lemma sortCmpAux_rep_nil (k : Nat) : sortCmpAux (List.replicate k 0) [] = 0 := by
  induction k with
  | zero => simp [sortCmpAux_nil_nil]
  | succ n ih => simpa [List.replicate_succ, sortCmpAux] using ih

lemma sortCmpAux_pad_right_nil (l : List Int) (k : Nat) :
    sortCmpAux (l ++ List.replicate k 0) [] = sortCmpAux l [] := by
  induction l with
  | nil => simp [sortCmpAux_rep_nil, sortCmpAux_nil_nil]
  | cons a as ih =>
    by_cases h : a = 0 <;> simp [sortCmpAux, h, ih]

lemma sortCmpAux_rep_left (k : Nat) (m : List Int) :
    sortCmpAux (List.replicate k 0) m = sortCmpAux [] m := by
  induction m generalizing k with
  | nil => simp [sortCmpAux_rep_nil, sortCmpAux_nil_nil]
  | cons b bs ih =>
    cases k with
    | zero => rfl
    | succ n =>
      by_cases h : b = 0
      · subst h
        have := ih n
        simpa [List.replicate_succ, sortCmpAux, sortCmpAux_nil, sortCmpNil] using this
      · have h' : ¬(0 : Int) = b := fun e => h e.symm
        simp [List.replicate_succ, sortCmpAux, sortCmpAux_nil, sortCmpNil, h, h']

lemma sortCmpAux_nil_pad (m : List Int) (j : Nat) :
    sortCmpAux [] (m ++ List.replicate j 0) = sortCmpAux [] m := by
  have h1 := sortCmpAux_nil_left (m ++ List.replicate j 0)
  have h2 := sortCmpAux_nil_left m
  have h3 := sortCmpAux_pad_right_nil m j
  omega

lemma sortCmpAux_pad (l1 l2 : List Int) (k j : Nat) :
    sortCmpAux (l1 ++ List.replicate k 0) (l2 ++ List.replicate j 0) =
      sortCmpAux l1 l2 := by
  induction l1 generalizing l2 with
  | nil =>
    rw [List.nil_append, sortCmpAux_rep_left, sortCmpAux_nil_pad]
  | cons a as ih =>
    cases l2 with
    | nil =>
      rw [List.nil_append]
      have h1 := sortCmpAux_neg ((a :: as) ++ List.replicate k 0) (List.replicate j 0)
      have h2 := sortCmpAux_rep_left j ((a :: as) ++ List.replicate k 0)
      have h3 := sortCmpAux_nil_left ((a :: as) ++ List.replicate k 0)
      have h4 := sortCmpAux_pad_right_nil (a :: as) k
      omega
    | cons b bs =>
      by_cases h : a = b <;> simp [sortCmpAux, h, ih]

lemma sortCmpAux_trans_eqlen :
    ∀ (l1 l2 l3 : List Int), l1.length = l2.length → l2.length = l3.length →
      sortCmpAux l1 l2 ≤ 0 → sortCmpAux l2 l3 ≤ 0 → sortCmpAux l1 l3 ≤ 0 := by
  intro l1
  induction l1 with
  | nil =>
    intro l2 l3 h12 h23 _ _
    have : l2 = [] := List.length_eq_zero.mp h12.symm
    subst this
    have : l3 = [] := List.length_eq_zero.mp h23.symm
    subst this
    simp [sortCmpAux_nil_nil]
  | cons a as ih =>
    intro l2 l3 h12 h23 hab hbc
    cases l2 with
    | nil => simp at h12
    | cons b bs =>
      cases l3 with
      | nil => simp at h23
      | cons c cs =>
        simp only [List.length_cons, Nat.succ.injEq] at h12 h23
        simp only [sortCmpAux, ne_eq] at hab hbc ⊢
        split_ifs at hab hbc ⊢ <;>
          first
          | exact ih bs cs h12 h23 hab hbc
          | omega

lemma sortCmpAux_trans {l1 l2 l3 : List Int}
    (h12 : sortCmpAux l1 l2 ≤ 0) (h23 : sortCmpAux l2 l3 ≤ 0) :
    sortCmpAux l1 l3 ≤ 0 := by
  set N := max (max l1.length l2.length) l3.length with hN
  have e12 : sortCmpAux (l1 ++ List.replicate (N - l1.length) 0)
      (l2 ++ List.replicate (N - l2.length) 0) = sortCmpAux l1 l2 :=
    sortCmpAux_pad _ _ _ _
  have e23 : sortCmpAux (l2 ++ List.replicate (N - l2.length) 0)
      (l3 ++ List.replicate (N - l3.length) 0) = sortCmpAux l2 l3 :=
    sortCmpAux_pad _ _ _ _
  have e13 : sortCmpAux (l1 ++ List.replicate (N - l1.length) 0)
      (l3 ++ List.replicate (N - l3.length) 0) = sortCmpAux l1 l3 :=
    sortCmpAux_pad _ _ _ _
  have len1 : (l1 ++ List.replicate (N - l1.length) 0).length = N := by
    simp [List.length_append]
    omega
  have len2 : (l2 ++ List.replicate (N - l2.length) 0).length = N := by
    simp [List.length_append]
    omega
  have len3 : (l3 ++ List.replicate (N - l3.length) 0).length = N := by
    simp [List.length_append]
    omega
  have := sortCmpAux_trans_eqlen _ _ _
    (len1.trans len2.symm) (len2.trans len3.symm)
    (e12 ▸ h12) (e23 ▸ h23)
  omega

/-! ## Insertion-sort lemmas -/

lemma mem_insertSorted (le : String → String → Bool) (x y : String) :
    ∀ l, (y ∈ insertSorted le x l ↔ y = x ∨ y ∈ l) := by
  intro l
  induction l with
  | nil => simp [insertSorted]
  | cons z zs ih =>
    by_cases h : le x z = true
    · simp [insertSorted, h]
    · simp [insertSorted, h, ih]
      tauto

lemma mem_sortByCmp (le : String → String → Bool) (y : String) :
    ∀ l, (y ∈ sortByCmp le l ↔ y ∈ l) := by
  intro l
  induction l with
  | nil => simp [sortByCmp]
  | cons z zs ih =>
    simp [sortByCmp, mem_insertSorted, ih]

lemma sortByCmp_ne_nil (le : String → String → Bool) (l : List String)
    (h : l ≠ []) : sortByCmp le l ≠ [] := by
  cases l with
  | nil => exact absurd rfl h
  | cons z zs =>
    simp only [sortByCmp]
    cases h2 : sortByCmp le zs with
    | nil => simp [insertSorted]
    | cons w ws =>
      by_cases h3 : le z w = true <;> simp [insertSorted, h3]

lemma pairwise_insertSorted (le : String → String → Bool)
    (htot : ∀ a b, le a b = true ∨ le b a = true)
    (htrans : ∀ a b c, le a b = true → le b c = true → le a c = true)
    (x : String) :
    ∀ l, List.Pairwise (fun a b => le a b = true) l →
      List.Pairwise (fun a b => le a b = true) (insertSorted le x l) := by
  intro l
  induction l with
  | nil =>
    intro _
    simp [insertSorted]
  | cons z zs ih =>
    intro hp
    rcases List.pairwise_cons.mp hp with ⟨hz, hzs⟩
    by_cases h : le x z = true
    · simp only [insertSorted, h, if_true]
      refine List.pairwise_cons.mpr ⟨?_, hp⟩
      intro b hb
      rcases List.mem_cons.mp hb with rfl | hb2
      · exact h
      · exact htrans x z b h (hz b hb2)
    · simp only [insertSorted, h, if_false]
      refine List.pairwise_cons.mpr ⟨?_, ih hzs⟩
      intro b hb
      rcases (mem_insertSorted le x b zs).mp hb with hbx | hb2
      · rw [hbx]
        rcases htot x z with h1 | h1
        · exact absurd h1 h
        · exact h1
      · exact hz b hb2

lemma pairwise_sortByCmp (le : String → String → Bool)
    (htot : ∀ a b, le a b = true ∨ le b a = true)
    (htrans : ∀ a b c, le a b = true → le b c = true → le a c = true) :
    ∀ l, List.Pairwise (fun a b => le a b = true) (sortByCmp le l) := by
  intro l
  induction l with
  | nil => simp [sortByCmp]
  | cons z zs ih => exact pairwise_insertSorted le htot htrans z _ ih

lemma sortByCmp_head_le (le : String → String → Bool)
    (htot : ∀ a b, le a b = true ∨ le b a = true)
    (htrans : ∀ a b c, le a b = true → le b c = true → le a c = true)
    (l : List String) (h : String) (t : List String)
    (heq : sortByCmp le l = h :: t) :
    ∀ v ∈ l, le h v = true := by
  intro v hv
  have hv' : v ∈ sortByCmp le l := (mem_sortByCmp le v l).mpr hv
  rw [heq] at hv'
  rcases List.mem_cons.mp hv' with rfl | hv2
  · rcases htot v v with h1 | h1 <;> exact h1
  · have hp := pairwise_sortByCmp le htot htrans l
    rw [heq] at hp
    exact (List.pairwise_cons.mp hp).1 v hv2

/-! ## Valid version strings: the two comparators agree in sign -/

lemma isDigit_not_special {c : Char} (hc : c.isDigit = true) :
    isJsSpace c = false ∧ (c = '-' → False) ∧ (c = '+' → False) := by
  refine ⟨?_, ?_, ?_⟩
  · cases hsp : isJsSpace c
    · rfl
    · exfalso
      unfold isJsSpace at hsp
      simp only [Bool.or_eq_true, decide_eq_true_eq] at hsp
      rcases hsp with ((rfl | rfl) | rfl) | rfl <;> exact absurd hc (by decide)
  · rintro rfl
    exact absurd hc (by decide)
  · rintro rfl
    exact absurd hc (by decide)

lemma jsParseInt_of_digits {seg : List Char} (hne : seg ≠ [])
    (hd : ∀ c ∈ seg, c.isDigit = true) :
    ∃ n : Nat, jsParseInt seg = some (n : Int) := by
  cases seg with
  | nil => exact absurd rfl hne
  | cons c cs =>
    have hc := hd c (List.mem_cons_self c cs)
    obtain ⟨hsp, hminus, hplus⟩ := isDigit_not_special hc
    have hp : parseDigits (c :: cs) = some (digitsVal (c.toNat - 48) cs) := by
      simp [parseDigits, hc]
    refine ⟨digitsVal (c.toNat - 48) cs, ?_⟩
    simp only [jsParseInt, List.dropWhile_cons, hsp, Bool.false_eq_true, if_false]
    rw [if_neg hminus, if_neg hplus, hp]
    rfl

lemma versionParts_eq_map_some {a : String} (ha : isDottedNumeric a = true) :
    versionParts a = (sortParts a).map some := by
  unfold versionParts sortParts
  rw [List.map_map]
  apply List.map_congr_left
  intro seg hseg
  unfold isDottedNumeric at ha
  rw [List.all_eq_true] at ha
  have h2 := ha seg hseg
  simp only [Bool.and_eq_true, Bool.not_eq_true', List.all_eq_true,
    decide_eq_true_eq] at h2
  have hne : seg ≠ [] := by
    have := h2.1
    cases seg <;> simp_all
  obtain ⟨n, hn⟩ := jsParseInt_of_digits hne h2.2
  simp [Function.comp, jsNumOr0, hn]

lemma cmpSegs_map_some_sign :
    ∀ (l1 l2 : List Int), l1.length = l2.length →
      cmpSegs (l1.map some) (l2.map some) = (sortCmpAux l1 l2).sign := by
  intro l1
  induction l1 with
  | nil =>
    intro l2 h
    have : l2 = [] := List.length_eq_zero.mp h.symm
    subst this
    simp [cmpSegs, sortCmpAux_nil_nil]
  | cons a as ih =>
    intro l2 h
    cases l2 with
    | nil => simp at h
    | cons b bs =>
      simp only [List.length_cons, Nat.succ.injEq] at h
      simp only [List.map_cons, cmpSegs, segLT, decide_eq_true_eq, sortCmpAux]
      by_cases h1 : a < b
      · have hne : a ≠ b := ne_of_lt h1
        rw [if_pos h1, if_pos hne, Int.sign_eq_neg_one_of_neg (by omega)]
      · by_cases h2 : b < a
        · have hne : a ≠ b := ne_of_gt h2
          rw [if_neg h1, if_pos h2, if_pos hne, Int.sign_eq_one_of_pos (by omega)]
        · have he : a = b := le_antisymm (not_lt.mp h2) (not_lt.mp h1)
          subst he
          rw [if_neg h1, if_neg h2, if_neg (by simp)]
          exact ih bs h

lemma compareVersions_valid_sign {a b : String}
    (ha : isDottedNumeric a = true) (hb : isDottedNumeric b = true) :
    compareVersions a b = (sortCmpAux (sortParts a) (sortParts b)).sign := by
  show cmpSegs _ _ = _
  rw [versionParts_eq_map_some ha, versionParts_eq_map_some hb]
  rw [List.length_map, List.length_map]
  have erep : ∀ k : Nat, List.replicate k (some (0 : Int)) =
      (List.replicate k (0 : Int)).map some := fun k => (List.map_replicate).symm
  rw [erep, erep, ← List.map_append, ← List.map_append]
  rw [cmpSegs_map_some_sign _ _ (by simp [List.length_append])]
  rw [sortCmpAux_pad]

lemma sortCmp_true_eq (a b : String) :
    sortCmp true a b = sortCmpAux (sortParts b) (sortParts a) := by
  simp [sortCmp]

lemma sortCmp_false_eq (a b : String) :
    sortCmp false a b = sortCmpAux (sortParts a) (sortParts b) := by
  simp [sortCmp]

lemma getLatestVersion_maximal (l : List String) (hne : l ≠ [])
    (hv : ∀ v ∈ l, isDottedNumeric v = true) :
    ∃ m, getLatestVersion l = some m ∧ m ∈ l ∧ ∀ v ∈ l, compareVersions m v ≠ -1 := by
  classical
  set le : String → String → Bool := fun a b => decide (sortCmp true a b ≤ 0) with hle
  have htot : ∀ a b, le a b = true ∨ le b a = true := by
    intro a b
    simp only [hle, decide_eq_true_eq, sortCmp_true_eq]
    have h := sortCmpAux_neg (sortParts b) (sortParts a)
    omega
  have htrans : ∀ a b c, le a b = true → le b c = true → le a c = true := by
    intro a b c h1 h2
    simp only [hle, decide_eq_true_eq, sortCmp_true_eq] at h1 h2 ⊢
    exact sortCmpAux_trans h2 h1
  obtain ⟨h, t, hht⟩ := List.exists_cons_of_ne_nil (sortByCmp_ne_nil le l hne)
  have hEmpty : l.isEmpty = false := by
    cases l
    · exact absurd rfl hne
    · rfl
  refine ⟨h, ?_, ?_, ?_⟩
  · simp only [getLatestVersion, sortVersions, hEmpty, Bool.false_eq_true, if_false]
    rw [← hle, hht]
    rfl
  · have : h ∈ sortByCmp le l := by
      rw [hht]
      exact List.mem_cons_self h t
    exact (mem_sortByCmp le h l).mp this
  · intro v hv2
    have hlev := sortByCmp_head_le le htot htrans l h t hht v hv2
    simp only [hle, decide_eq_true_eq, sortCmp_true_eq] at hlev
    have hneg := sortCmpAux_neg (sortParts v) (sortParts h)
    have hge : 0 ≤ sortCmpAux (sortParts h) (sortParts v) := by omega
    have hs := compareVersions_valid_sign (hv h ((mem_sortByCmp le h l).mp (by rw [hht]; exact List.mem_cons_self h t))) (hv v hv2)
    rw [hs]
    rcases lt_trichotomy (sortCmpAux (sortParts h) (sortParts v)) 0 with hlt | heq | hgt
    · omega
    · rw [heq]
      decide
    · rw [Int.sign_eq_one_of_pos hgt]
      decide

/-! ## Claim theorems: version comparator -/

lemma compareVersions_range (a b : String) :
    compareVersions a b = -1 ∨ compareVersions a b = 0 ∨ compareVersions a b = 1 := by
  show cmpSegs _ _ = -1 ∨ cmpSegs _ _ = 0 ∨ cmpSegs _ _ = 1
  exact cmpSegs_range _ _

/-- C4 (counterexample): the claim says treating an unparsable segment
as zero gives the same result; but `"x"` with its unparsable segment
replaced by `"0"` is `"0"`, and `compareVersions "x" "5" = 0` (the `NaN`
segment ties with `5`) while `compareVersions "0" "5" = -1`. -/
theorem C4_counterexample :
    compareVersions "x" "5" = 0 ∧ compareVersions "0" "5" = -1 ∧
      compareVersions "x" "5" ≠ compareVersions "0" "5" := by
  refine ⟨by decide, by decide, by decide⟩

/-- C4 (amended): for every pair of input strings `compareVersions`
returns a value in `{-1, 0, 1}` without raising; on malformed input it
degrades gracefully by *skipping* every segment pair with an unparsable
side (an unparsable segment compares as neither less nor greater, like
`NaN`), not by replacing unparsable segments with zero. -/
theorem C4_total_and_nan_tie : ∀ a b : String,
    (compareVersions a b = -1 ∨ compareVersions a b = 0 ∨ compareVersions a b = 1) ∧
      compareVersions a b = compareVersionsSkipNaN a b :=
  fun a b => ⟨compareVersions_range a b, compareVersions_eq_skipNaN a b⟩

/-- C6: for valid dotted version strings, `compareVersions` is
antisymmetric and reflexive. -/
theorem C6_antisymm_refl : ∀ a b : String,
    isDottedNumeric a = true → isDottedNumeric b = true →
      compareVersions a b = -compareVersions b a ∧ compareVersions a a = 0 :=
  fun a b _ _ => ⟨compareVersions_antisymm a b, compareVersions_self a⟩

theorem C6_witness :
    isDottedNumeric "1.2.3" = true ∧ isDottedNumeric "1.10.0" = true ∧
      compareVersions "1.2.3" "1.10.0" = -compareVersions "1.10.0" "1.2.3" ∧
      compareVersions "1.2.3" "1.2.3" = 0 :=
  ⟨by decide, by decide,
    (C6_antisymm_refl "1.2.3" "1.10.0" (by decide) (by decide)).1,
    (C6_antisymm_refl "1.2.3" "1.10.0" (by decide) (by decide)).2⟩

/-- C7: missing trailing segments are treated as zero:
`compareVersions "1.0" "1.0.0" = 0`, `compareVersions "1.0.0" "1.0.0.1" < 0`,
and appending a `".0"` segment on either side never changes the result. -/
theorem C7_trailing_zeros : compareVersions "1.0" "1.0.0" = 0 ∧
    compareVersions "1.0.0" "1.0.0.1" < 0 ∧
    ∀ a b : String, compareVersions (a ++ ".0") b = compareVersions a b ∧
      compareVersions a (b ++ ".0") = compareVersions a b :=
  ⟨by decide, by decide, fun a b =>
    ⟨compareVersions_append_zero_left a b, compareVersions_append_zero_right a b⟩⟩

/-- C8: `getStoreUrl` implements exactly the specified resolution —
explicit override when present, else synthesis from the identifier when
present, else `null`; always `null` on web ("present" being JS
truthiness: a non-empty string). -/
theorem C8_store_url_resolution : ∀ (p : Platform) (cfg : AppStoreConfig),
    getStoreUrl p cfg = resolveStoreUrlSpec p cfg := by
  intro p cfg
  cases p
  · by_cases h1 : truthyOS cfg.iosStoreUrl = true
    · simp [getStoreUrl, resolveStoreUrlSpec, getIosStoreUrl, h1]
    · by_cases h2 : truthyOS cfg.iosAppStoreId = true <;>
        simp [getStoreUrl, resolveStoreUrlSpec, getIosStoreUrl, h1, h2]
  · by_cases h1 : truthyOS cfg.androidStoreUrl = true
    · simp [getStoreUrl, resolveStoreUrlSpec, getAndroidStoreUrl, h1]
    · by_cases h2 : truthyOS cfg.androidPackageName = true <;>
        simp [getStoreUrl, resolveStoreUrlSpec, getAndroidStoreUrl, h1, h2]
  · rfl

/-- C5 (counterexample): on malformed strings the `sortVersions`
comparator (which zeroes `NaN` segments) disagrees in sign with
`compareVersions` (which lets `NaN` tie): ascending comparison of
`"x"` and `"5"` yields `-5` while `compareVersions` yields `0`; and
`getLatestVersion ["x.9", "1.5"]` returns `"1.5"` although the list
member `"x.9"` is strictly greater under `compareVersions`. -/
theorem C5_counterexample :
    sortCmp false "x" "5" = -5 ∧ compareVersions "x" "5" = 0 ∧
      getLatestVersion ["x.9", "1.5"] = some "1.5" ∧
      "x.9" ∈ ["x.9", "1.5"] ∧ compareVersions "1.5" "x.9" = -1 := by
  refine ⟨by decide, by decide, by decide, by decide, by decide⟩

/-- C5 (amended): restricted to valid dotted-numeric version strings,
the `sortVersions` pairwise comparator agrees in sign with
`compareVersions`, and `getLatestVersion` of a non-empty list of valid
strings returns an element of the list maximal under `compareVersions`
(and `none` for the empty list). Both helpers are pure Lean functions. -/
theorem C5_sort_helpers : (∀ a b : String,
      isDottedNumeric a = true → isDottedNumeric b = true →
        compareVersions a b = (sortCmp false a b).sign) ∧
    (∀ l : List String, l ≠ [] → (∀ v ∈ l, isDottedNumeric v = true) →
      ∃ m, getLatestVersion l = some m ∧ m ∈ l ∧ ∀ v ∈ l, compareVersions m v ≠ -1) ∧
    getLatestVersion [] = none := by
  refine ⟨?_, getLatestVersion_maximal, rfl⟩
  intro a b ha hb
  rw [sortCmp_false_eq]
  exact compareVersions_valid_sign ha hb

theorem C5_witness :
    (compareVersions "1.2" "1.10" = (sortCmp false "1.2" "1.10").sign) ∧
      ∃ m, getLatestVersion ["1.2", "1.10"] = some m ∧ m ∈ ["1.2", "1.10"] ∧
        ∀ v ∈ ["1.2", "1.10"], compareVersions m v ≠ -1 :=
  ⟨C5_sort_helpers.1 "1.2" "1.10" (by decide) (by decide),
    C5_sort_helpers.2.1 ["1.2", "1.10"] (by decide)
      (by intro v hv; fin_cases hv <;> decide)⟩

/-! ## Claim theorems: decision engine -/

/-- C9: when the platform is web and `skipWebPlatform` is set,
`isUpdateAvailable()` resolves to `false` leaving store, trace and
clock untouched — in particular no `getCurrentVersion` or
`getLatestVersion` event is recorded; otherwise its outcome is exactly
`getVersionInfo().updateAvailable`. -/
theorem C9_isUpdateAvailable_shortcut :
    ∀ (env : Env) (st : StoreState) (tr : List Event) (ck : Nat),
      (env.platform = Platform.web ∧ env.skipWebPlatform = true →
        isUpdateAvailableRun env st tr ck = (.ok false, st, tr, ck)) ∧
      (¬(env.platform = Platform.web ∧ env.skipWebPlatform = true) →
        (isUpdateAvailableRun env st tr ck).1 =
          (getVersionInfoExc env).map (fun vi => vi.updateAvailable)) := by
  intro env st tr ck
  constructor
  · intro h
    simp [isUpdateAvailableRun, h]
  · intro h
    simp only [isUpdateAvailableRun, getVersionInfoRun, if_neg h]
    cases hv : getVersionInfoExc env <;> simp [Except.map]

/-- C2 (counterexample): with `latestVersion` resolving to the empty
string (non-null) and current version `"0.-1"`, the dotted-numeric
comparison says the latest is strictly greater
(`compareVersions "0.-1" "" = -1 < 0`), yet `getVersionInfo()` reports
`updateAvailable = false` because JS truthiness treats `""` like null. -/
theorem C2_counterexample :
    (getVersionInfoExc
        { data := { getCurrentVersion := .ok "0.-1"
                    getLatestVersion := fun _ => .ok (some "")
                    getAppStoreConfig := .ok {}
                    isUpdateMandatory := none }
          sb := ⟨false, false, false, false, false, false, false⟩
          nowFn := fun _ => 0
          platform := .ios
          minCheckInterval := 0
          skipWebPlatform := true }).map (fun vi => vi.updateAvailable)
      = .ok false ∧
    compareVersions "0.-1" "" < 0 ∧ (some "" : Option String) ≠ none := by
  refine ⟨rfl, by decide, by simp⟩

/-- C2 (amended): whenever the three Data Source fetches succeed,
`getVersionInfo()` resolves to a `VersionInfo` whose `updateAvailable`
is true iff `latestVersion` is non-null, non-empty (JS truthiness) and
strictly greater than `currentVersion` under `compareVersions`. -/
theorem C2_updateAvailable_iff :
    ∀ (env : Env) (st : StoreState) (tr : List Event) (ck : Nat)
      (cv : String) (lv : Option String) (cfg : AppStoreConfig),
      env.data.getCurrentVersion = .ok cv →
      env.data.getLatestVersion env.platform = .ok lv →
      env.data.getAppStoreConfig = .ok cfg →
      ∃ vi, (getVersionInfoRun env st tr ck).1 = .ok vi ∧
        vi.currentVersion = cv ∧ vi.latestVersion = lv ∧
        (vi.updateAvailable = true ↔
          ∃ l, lv = some l ∧ l ≠ "" ∧ compareVersions cv l < 0) := by
  intro env st tr ck cv lv cfg h1 h2 h3
  simp only [getVersionInfoRun, getVersionInfoExc, h1, h2, h3]
  refine ⟨_, rfl, rfl, rfl, ?_⟩
  cases lv with
  | none => simp
  | some l =>
    by_cases hl : l = ""
    · subst hl
      simp
    · simp only [hl, ne_eq, not_false_eq_true, if_true, isUpdateAvailable,
        decide_eq_true_eq, Option.some.injEq]
      constructor
      · intro h
        exact ⟨l, rfl, hl, h⟩
      · rintro ⟨l', hl', _, hcmp⟩
        cases hl'
        exact hcmp


/-- C1 (failing run): with a Data Source whose `getLatestVersion`
always rejects and a non-web platform, `shouldShowUpdatePrompt()`
rejects instead of resolving to `skipReason = error`: the exception is
caught, but the catch block re-fetches the version info unguarded and
that re-fetch rejects again. -/
theorem C1_rejecting_data_source_rejects :
    (shouldShowUpdatePromptRun envReject stEmpty [] 0).1 = .error () := rfl

theorem C2_witness :
    ∃ vi, (getVersionInfoRun envFresh stEmpty [] 0).1 = .ok vi ∧
      vi.currentVersion = "1.0.49" ∧ vi.latestVersion = some "1.1.0" ∧
      (vi.updateAvailable = true ↔
        ∃ l, some "1.1.0" = some l ∧ l ≠ "" ∧ compareVersions "1.0.49" l < 0) :=
  C2_updateAvailable_iff envFresh stEmpty [] 0 "1.0.49" (some "1.1.0") {} rfl rfl rfl

theorem C9_witness :
    isUpdateAvailableRun envWeb stEmpty [] 0 = (.ok false, stEmpty, [], 0) ∧
      (isUpdateAvailableRun envFresh stEmpty [] 0).1 =
        (getVersionInfoExc envFresh).map (fun vi => vi.updateAvailable) :=
  ⟨(C9_isUpdateAvailable_shortcut envWeb stEmpty [] 0).1 ⟨rfl, rfl⟩,
    (C9_isUpdateAvailable_shortcut envFresh stEmpty [] 0).2 (by simp [envFresh])⟩

lemma getVersionInfoTrace_no_writes (env : Env) :
    ∀ e ∈ getVersionInfoTrace env, isWrite e = false := by
  intro e he
  unfold getVersionInfoTrace at he
  rcases h1 : env.data.getCurrentVersion with _ | _ <;> rw [h1] at he
  · simp at he
    subst he
    rfl
  · rcases h2 : env.data.getLatestVersion env.platform with _ | _ <;> rw [h2] at he <;>
      simp at he
    · rcases he with rfl | rfl <;> rfl
    · rcases he with rfl | rfl | rfl <;> rfl

lemma promptWriteRun_ok {env : Env} {vi : VersionInfo} {st : StoreState}
    {tr : List Event} {ck : Nat} {r : VersionCheckResult} {st2 : StoreState}
    {tr2 : List Event} {ck2 : Nat}
    (h : promptWriteRun env vi st tr ck = (.ok r, st2, tr2, ck2)) :
    r = ⟨true, vi, none⟩ := by
  by_cases h1 : env.sb.setLastCheckThrows = true
  · simp [promptWriteRun, setLastCheckRun, h1] at h
  · by_cases h2 : env.sb.hasSetLastShown = true ∧ truthyOS vi.latestVersion = true
    · by_cases h3 : env.sb.setLastShownThrows = true
      · simp [promptWriteRun, setLastCheckRun, setLastShownRun, h1, h2, h3] at h
      · simp [promptWriteRun, setLastCheckRun, setLastShownRun, h1, h2, h3] at h
        exact h.1.symm
    · simp [promptWriteRun, setLastCheckRun, h1, h2] at h
      exact h.1.symm

lemma promptShownCheckRun_char {env : Env} {vi : VersionInfo} {st : StoreState}
    {tr : List Event} {ck : Nat} {r : VersionCheckResult} {st2 : StoreState}
    {tr2 : List Event} {ck2 : Nat}
    (h : promptShownCheckRun env vi st tr ck = (.ok r, st2, tr2, ck2)) :
    r.skipReason = none ∨
      (st2 = st ∧ ∀ e ∈ tr2, e ∈ tr ∨ isWrite e = false) := by
  by_cases h1 : env.sb.hasGetLastShown = true
  · by_cases h2 : env.sb.getLastShownThrows = true
    · simp [promptShownCheckRun, getLastShownRun, h1, h2] at h
    · simp only [promptShownCheckRun, getLastShownRun, h1, h2, if_true,
        Bool.false_eq_true, if_false] at h
      by_cases h3 : st.lastShownVersion = vi.latestVersion
      · rw [if_pos h3] at h
        rcases h4 : env.data.isUpdateMandatory with _ | f <;> simp only [h4] at h
        · simp only [Prod.mk.injEq, Except.ok.injEq] at h
          right
          refine ⟨h.2.1.symm, ?_⟩
          intro e he
          rw [← h.2.2.1] at he
          rcases List.mem_append.mp he with h5 | h5
          · exact Or.inl h5
          · simp at h5
            subst h5
            exact Or.inr rfl
        · rcases h5 : f vi.currentVersion (vi.latestVersion.getD "") with _ | m <;>
            simp only [h5] at h
          · simp at h
          · by_cases h6 : m = false
            · rw [if_pos h6] at h
              simp only [Prod.mk.injEq, Except.ok.injEq] at h
              right
              refine ⟨h.2.1.symm, ?_⟩
              intro e he
              rw [← h.2.2.1] at he
              rcases List.mem_append.mp he with h7 | h7
              · rcases List.mem_append.mp h7 with h8 | h8
                · exact Or.inl h8
                · simp at h8
                  subst h8
                  exact Or.inr rfl
              · simp at h7
                subst h7
                exact Or.inr rfl
            · rw [if_neg h6] at h
              left
              rw [promptWriteRun_ok h]
      · rw [if_neg h3] at h
        left
        rw [promptWriteRun_ok h]
  · simp only [promptShownCheckRun, h1, if_false] at h
    left
    rw [promptWriteRun_ok h]

lemma promptTryRun_char {env : Env} {st : StoreState} {tr : List Event}
    {ck : Nat} {r : VersionCheckResult} {st2 : StoreState} {tr2 : List Event}
    {ck2 : Nat}
    (h : promptTryRun env st tr ck = (.ok r, st2, tr2, ck2)) :
    r.skipReason = none ∨
      (st2 = st ∧ ∀ e ∈ tr2, e ∈ tr ∨ isWrite e = false) := by
  have hvt := getVersionInfoTrace_no_writes env
  simp only [promptTryRun, getVersionInfoRun] at h
  rcases hv : getVersionInfoExc env with e | vi
  · simp only [hv] at h
    simp at h
  · simp only [hv] at h
    by_cases hu : vi.updateAvailable = false
    · rw [if_pos hu] at h
      simp only [Prod.mk.injEq, Except.ok.injEq] at h
      right
      refine ⟨h.2.1.symm, ?_⟩
      intro e he
      rw [← h.2.2.1] at he
      rcases List.mem_append.mp he with h5 | h5
      · exact Or.inl h5
      · exact Or.inr (hvt e h5)
    · rw [if_neg hu] at h
      by_cases hrt : env.sb.getRemindLaterThrows = true
      · simp [getRemindLaterRun, hrt] at h
      · simp only [getRemindLaterRun, hrt, Bool.false_eq_true, if_false] at h
        by_cases hrl : (if truthyON st.remindLaterTime then
            ((env.nowFn ck < st.remindLaterTime.getD 0 : Bool), ck + 1)
            else (false, ck)).1 = true
        · rw [if_pos hrl] at h
          simp only [Prod.mk.injEq, Except.ok.injEq] at h
          right
          refine ⟨h.2.1.symm, ?_⟩
          intro e he
          rw [← h.2.2.1] at he
          rcases List.mem_append.mp he with h5 | h5
          · rcases List.mem_append.mp h5 with h6 | h6
            · exact Or.inl h6
            · exact Or.inr (hvt e h6)
          · simp at h5
            subst h5
            exact Or.inr rfl
        · rw [if_neg hrl] at h
          by_cases hlt : env.sb.getLastCheckThrows = true
          · simp [getLastCheckRun, hlt] at h
          · simp only [getLastCheckRun, hlt, Bool.false_eq_true, if_false] at h
            set ck3 := (if truthyON st.remindLaterTime then
                ((env.nowFn ck < st.remindLaterTime.getD 0 : Bool), ck + 1)
                else (false, ck)).2 with hck3
            by_cases hts : (if truthyON st.lastCheckTime then
                ((env.nowFn ck3 - st.lastCheckTime.getD 0 < env.minCheckInterval : Bool),
                  ck3 + 1)
                else (false, ck3)).1 = true
            · rw [if_pos hts] at h
              simp only [Prod.mk.injEq, Except.ok.injEq] at h
              right
              refine ⟨h.2.1.symm, ?_⟩
              intro e he
              rw [← h.2.2.1] at he
              rcases List.mem_append.mp he with h5 | h5
              · rcases List.mem_append.mp h5 with h6 | h6
                · rcases List.mem_append.mp h6 with h7 | h7
                  · exact Or.inl h7
                  · exact Or.inr (hvt e h7)
                · simp at h6
                  subst h6
                  exact Or.inr rfl
              · simp at h5
                subst h5
                exact Or.inr rfl
            · rw [if_neg hts] at h
              rcases promptShownCheckRun_char h with h5 | h5
              · exact Or.inl h5
              · right
                refine ⟨h5.1, ?_⟩
                intro e he
                rcases h5.2 e he with h6 | h6
                · rcases List.mem_append.mp h6 with h7 | h7
                  · rcases List.mem_append.mp h7 with h8 | h8
                    · rcases List.mem_append.mp h8 with h9 | h9
                      · exact Or.inl h9
                      · exact Or.inr (hvt e h9)
                    · simp at h8
                      subst h8
                      exact Or.inr rfl
                  · simp at h7
                    subst h7
                    exact Or.inr rfl
                · exact Or.inr h6

/-- C10: whenever `shouldShowUpdatePrompt()` resolves with skip reason
`web_platform`, `no_update`, `remind_later` or `too_soon`, the
Preference Store state is exactly as before the call and the trace
contains no write operation (`setLastCheckTime`, `setLastShownVersion`,
`setRemindLaterTime`, `incrementDismissCount`); writes happen only on
the prompting path. -/
theorem C10_skip_branches_no_writes :
    ∀ (env : Env) (st : StoreState) (ck : Nat) (r : VersionCheckResult)
      (st2 : StoreState) (tr2 : List Event) (ck2 : Nat),
      shouldShowUpdatePromptRun env st [] ck = (.ok r, st2, tr2, ck2) →
      (r.skipReason = some SkipReason.web_platform ∨
        r.skipReason = some SkipReason.no_update ∨
        r.skipReason = some SkipReason.remind_later ∨
        r.skipReason = some SkipReason.too_soon) →
      st2 = st ∧ ∀ e ∈ tr2, isWrite e = false := by
  intro env st ck r st2 tr2 ck2 h hskip
  simp only [shouldShowUpdatePromptRun] at h
  by_cases hweb : env.platform = Platform.web ∧ env.skipWebPlatform = true
  · rw [if_pos hweb] at h
    simp only [getVersionInfoRun] at h
    rcases hv : getVersionInfoExc env with e | vi <;> simp only [hv] at h
    · simp at h
    · simp only [Prod.mk.injEq, Except.ok.injEq] at h
      refine ⟨h.2.1.symm, ?_⟩
      intro e he
      rw [← h.2.2.1] at he
      rcases List.mem_append.mp he with h5 | h5
      · simp at h5
      · exact getVersionInfoTrace_no_writes env e h5
  · rw [if_neg hweb] at h
    rcases ht : promptTryRun env st [] ck with ⟨res, st3, tr3, ck3⟩
    rw [ht] at h
    cases res with
    | ok r0 =>
      simp only [Prod.mk.injEq, Except.ok.injEq] at h
      rcases promptTryRun_char (ht.trans (by rw [h.1, h.2.1, h.2.2.1, h.2.2.2])) with h5 | h5
      · rcases hskip with hs | hs | hs | hs <;> rw [hs] at h5 <;> simp at h5
      · refine ⟨h5.1, ?_⟩
        intro e he
        rcases h5.2 e he with h6 | h6
        · simp at h6
        · exact h6
    | error e0 =>
      simp only [getVersionInfoRun] at h
      rcases hv : getVersionInfoExc env with e | vi <;> simp only [hv] at h
      · simp at h
      · simp only [Prod.mk.injEq, Except.ok.injEq] at h
        rw [← h.1] at hskip
        simp at hskip

theorem C10_witness :
    stEmpty = stEmpty ∧
      ∀ e ∈ [Event.getCurrentVersion, Event.getLatestVersion Platform.web,
        Event.getAppStoreConfig], isWrite e = false :=
  C10_skip_branches_no_writes envWeb stEmpty 0
    ⟨false,
      { currentVersion := "1.0.49", latestVersion := some "1.1.0",
        updateAvailable := true, storeUrl := none, platform := Platform.web },
      some SkipReason.web_platform⟩
    stEmpty
    [Event.getCurrentVersion, Event.getLatestVersion Platform.web,
      Event.getAppStoreConfig] 0
    (by rfl) (Or.inl rfl)

/-- C3: with an update available, a platform that is not skipped, an
all-succeeding store holding no reminder time, no last-check time and no
last-shown version, `shouldShowUpdatePrompt()` prompts and persists
`lastCheckTime = Date.now()` (and the last shown version when the store
supports it); an immediately following second call, the persisted
`lastCheckTime` being nonzero and within `minCheckInterval` of the new
reading, resolves to `shouldShowPrompt:false` with `skipReason = too_soon`,
leaving the store unchanged. -/
theorem C3_fresh_prompt_then_too_soon :
    ∀ (env : Env) (st : StoreState) (ck : Nat) (cv lv : String) (cfg : AppStoreConfig),
      ¬(env.platform = Platform.web ∧ env.skipWebPlatform = true) →
      env.data.getCurrentVersion = .ok cv →
      env.data.getLatestVersion env.platform = .ok (some lv) →
      env.data.getAppStoreConfig = .ok cfg →
      lv ≠ "" →
      compareVersions cv lv < 0 →
      st.remindLaterTime = none →
      st.lastCheckTime = none →
      st.lastShownVersion = none →
      env.sb.getRemindLaterThrows = false →
      env.sb.getLastCheckThrows = false →
      env.sb.getLastShownThrows = false →
      env.sb.setLastCheckThrows = false →
      env.sb.setLastShownThrows = false →
      env.nowFn ck ≠ 0 →
      env.nowFn (ck + 1) - env.nowFn ck < env.minCheckInterval →
      ∃ vi,
        (shouldShowUpdatePromptRun env st [] ck).1 = .ok ⟨true, vi, none⟩ ∧
        vi.latestVersion = some lv ∧
        (shouldShowUpdatePromptRun env st [] ck).2.1 =
          (if env.sb.hasSetLastShown = true then
            { st with lastCheckTime := some (env.nowFn ck),
                      lastShownVersion := some lv }
          else { st with lastCheckTime := some (env.nowFn ck) }) ∧
        (shouldShowUpdatePromptRun env st [] ck).2.2.2 = ck + 1 ∧
        ∃ vi2,
          (shouldShowUpdatePromptRun env
              ((shouldShowUpdatePromptRun env st [] ck).2.1) [] (ck + 1)).1 =
            .ok ⟨false, vi2, some SkipReason.too_soon⟩ ∧
          (shouldShowUpdatePromptRun env
              ((shouldShowUpdatePromptRun env st [] ck).2.1) [] (ck + 1)).2.1 =
            (shouldShowUpdatePromptRun env st [] ck).2.1 := by
  intro env st ck cv lv cfg hweb hcv hlv hcfg hne hup hrem hlast hshown
    hsb1 hsb2 hsb3 hsb4 hsb5 ht0 ht1
  have hvi : getVersionInfoExc env =
      .ok { currentVersion := cv, latestVersion := some lv,
            updateAvailable := true,
            storeUrl := getStoreUrl env.platform cfg,
            platform := env.platform } := by
    simp only [getVersionInfoExc, hcv, hlv, hcfg, hne, ne_eq, not_false_eq_true,
      if_true, isUpdateAvailable]
    simp [hup]
  have hA : (shouldShowUpdatePromptRun env st [] ck).1 =
      .ok ⟨true,
        { currentVersion := cv, latestVersion := some lv,
          updateAvailable := true,
          storeUrl := getStoreUrl env.platform cfg,
          platform := env.platform }, none⟩ := by
    simp only [shouldShowUpdatePromptRun, if_neg hweb, promptTryRun,
      getVersionInfoRun, hvi, getRemindLaterRun, hsb1, getLastCheckRun, hsb2,
      hrem, hlast, truthyON, Bool.false_eq_true, if_false]
    by_cases hget : env.sb.hasGetLastShown = true
    · simp only [promptShownCheckRun, hget, if_true, getLastShownRun, hsb3,
        hshown, Bool.false_eq_true, if_false]
      rw [if_neg (by simp)]
      by_cases hset : env.sb.hasSetLastShown = true
      · simp [promptWriteRun, setLastCheckRun, setLastShownRun, hsb4, hsb5,
          truthyOS, hne, hset, hrem, hlast, hshown]
      · simp [promptWriteRun, setLastCheckRun, hsb4, truthyOS, hne, hset,
          hrem, hlast, hshown]
    · by_cases hset : env.sb.hasSetLastShown = true
      · simp [promptShownCheckRun, promptWriteRun, setLastCheckRun,
          setLastShownRun, hsb4, hsb5, truthyOS, hne, hget, hset,
          hrem, hlast, hshown]
      · simp [promptShownCheckRun, promptWriteRun, setLastCheckRun, hsb4,
          truthyOS, hne, hget, hset, hrem, hlast, hshown]
  have hB : (shouldShowUpdatePromptRun env st [] ck).2.1 =
      (if env.sb.hasSetLastShown = true then
        { st with lastCheckTime := some (env.nowFn ck),
                  lastShownVersion := some lv }
      else { st with lastCheckTime := some (env.nowFn ck) }) := by
    simp only [shouldShowUpdatePromptRun, if_neg hweb, promptTryRun,
      getVersionInfoRun, hvi, getRemindLaterRun, hsb1, getLastCheckRun, hsb2,
      hrem, hlast, truthyON, Bool.false_eq_true, if_false]
    by_cases hget : env.sb.hasGetLastShown = true
    · simp only [promptShownCheckRun, hget, if_true, getLastShownRun, hsb3,
        hshown, Bool.false_eq_true, if_false]
      rw [if_neg (by simp)]
      by_cases hset : env.sb.hasSetLastShown = true
      · simp [promptWriteRun, setLastCheckRun, setLastShownRun, hsb4, hsb5,
          truthyOS, hne, hset, hrem, hlast, hshown]
      · simp [promptWriteRun, setLastCheckRun, hsb4, truthyOS, hne, hset,
          hrem, hlast, hshown]
    · by_cases hset : env.sb.hasSetLastShown = true
      · simp [promptShownCheckRun, promptWriteRun, setLastCheckRun,
          setLastShownRun, hsb4, hsb5, truthyOS, hne, hget, hset,
          hrem, hlast, hshown]
      · simp [promptShownCheckRun, promptWriteRun, setLastCheckRun, hsb4,
          truthyOS, hne, hget, hset, hrem, hlast, hshown]
  have hC : (shouldShowUpdatePromptRun env st [] ck).2.2.2 = ck + 1 := by
    simp only [shouldShowUpdatePromptRun, if_neg hweb, promptTryRun,
      getVersionInfoRun, hvi, getRemindLaterRun, hsb1, getLastCheckRun, hsb2,
      hrem, hlast, truthyON, Bool.false_eq_true, if_false]
    by_cases hget : env.sb.hasGetLastShown = true
    · simp only [promptShownCheckRun, hget, if_true, getLastShownRun, hsb3,
        hshown, Bool.false_eq_true, if_false]
      rw [if_neg (by simp)]
      by_cases hset : env.sb.hasSetLastShown = true
      · simp [promptWriteRun, setLastCheckRun, setLastShownRun, hsb4, hsb5,
          truthyOS, hne, hset, hrem, hlast, hshown]
      · simp [promptWriteRun, setLastCheckRun, hsb4, truthyOS, hne, hset,
          hrem, hlast, hshown]
    · by_cases hset : env.sb.hasSetLastShown = true
      · simp [promptShownCheckRun, promptWriteRun, setLastCheckRun,
          setLastShownRun, hsb4, hsb5, truthyOS, hne, hget, hset,
          hrem, hlast, hshown]
      · simp [promptShownCheckRun, promptWriteRun, setLastCheckRun, hsb4,
          truthyOS, hne, hget, hset, hrem, hlast, hshown]
  have hstf1 : (if env.sb.hasSetLastShown = true then
      { st with lastCheckTime := some (env.nowFn ck),
                lastShownVersion := some lv }
    else { st with lastCheckTime := some (env.nowFn ck) }).remindLaterTime = none := by
    by_cases hset : env.sb.hasSetLastShown = true <;> simp [hset, hrem]
  have hstf2 : (if env.sb.hasSetLastShown = true then
      { st with lastCheckTime := some (env.nowFn ck),
                lastShownVersion := some lv }
    else { st with lastCheckTime := some (env.nowFn ck) }).lastCheckTime =
      some (env.nowFn ck) := by
    by_cases hset : env.sb.hasSetLastShown = true <;> simp [hset]
  have hD : (shouldShowUpdatePromptRun env
      (if env.sb.hasSetLastShown = true then
        { st with lastCheckTime := some (env.nowFn ck),
                  lastShownVersion := some lv }
      else { st with lastCheckTime := some (env.nowFn ck) }) [] (ck + 1)).1 =
      .ok ⟨false,
        { currentVersion := cv, latestVersion := some lv,
          updateAvailable := true,
          storeUrl := getStoreUrl env.platform cfg,
          platform := env.platform }, some SkipReason.too_soon⟩ := by
    simp only [shouldShowUpdatePromptRun, if_neg hweb, promptTryRun,
      getVersionInfoRun, hvi, getRemindLaterRun, hsb1, getLastCheckRun, hsb2,
      hstf1, hstf2, truthyON, Bool.false_eq_true, if_false]
    simp [ht0, ht1]
  have hE : (shouldShowUpdatePromptRun env
      (if env.sb.hasSetLastShown = true then
        { st with lastCheckTime := some (env.nowFn ck),
                  lastShownVersion := some lv }
      else { st with lastCheckTime := some (env.nowFn ck) }) [] (ck + 1)).2.1 =
      (if env.sb.hasSetLastShown = true then
        { st with lastCheckTime := some (env.nowFn ck),
                  lastShownVersion := some lv }
      else { st with lastCheckTime := some (env.nowFn ck) }) := by
    simp only [shouldShowUpdatePromptRun, if_neg hweb, promptTryRun,
      getVersionInfoRun, hvi, getRemindLaterRun, hsb1, getLastCheckRun, hsb2,
      hstf1, hstf2, truthyON, Bool.false_eq_true, if_false]
    simp [ht0, ht1]
  refine ⟨_, hA, rfl, hB, hC, ?_⟩
  rw [hB]
  exact ⟨_, hD, hE⟩

theorem C3_witness :
    ∃ vi,
      (shouldShowUpdatePromptRun envFresh stEmpty [] 0).1 = .ok ⟨true, vi, none⟩ ∧
      vi.latestVersion = some "1.1.0" ∧
      (shouldShowUpdatePromptRun envFresh stEmpty [] 0).2.1 =
        (if envFresh.sb.hasSetLastShown = true then
          { stEmpty with lastCheckTime := some (envFresh.nowFn 0),
                         lastShownVersion := some "1.1.0" }
        else { stEmpty with lastCheckTime := some (envFresh.nowFn 0) }) ∧
      (shouldShowUpdatePromptRun envFresh stEmpty [] 0).2.2.2 = 0 + 1 ∧
      ∃ vi2,
        (shouldShowUpdatePromptRun envFresh
            ((shouldShowUpdatePromptRun envFresh stEmpty [] 0).2.1) [] (0 + 1)).1 =
          .ok ⟨false, vi2, some SkipReason.too_soon⟩ ∧
        (shouldShowUpdatePromptRun envFresh
            ((shouldShowUpdatePromptRun envFresh stEmpty [] 0).2.1) [] (0 + 1)).2.1 =
          (shouldShowUpdatePromptRun envFresh stEmpty [] 0).2.1 :=
  C3_fresh_prompt_then_too_soon envFresh stEmpty 0 "1.0.49" "1.1.0" {}
    (by simp [envFresh]) rfl rfl rfl (by decide) (by decide)
    rfl rfl rfl rfl rfl rfl rfl rfl (by decide) (by decide)
